import Mathlib

/-!
Verification of the core extraction logic of `Tools/chandra_inference.py`
(seshat repository): the layout-block parser `parse_layout_blocks`, the
plain-text fallback `extract_text_from_html`, the size normalizer
`resize_image_if_needed`, and the assemble step of `run_inference`.

Modelling conventions (shallow embedding):
* Python strings are sequences of code points, modelled as `List Char`
  (`PyStr`).  Whitespace classes are idealized to their ASCII parts.
* The markup tree produced by BeautifulSoup (`html.parser`) is modelled as
  the tree itself (`Node`); the parser functions consume the tree exactly
  as the Python functions consume the soup.
* `json.loads` (stdlib) is modelled by `jsonLoads`, a recursive-descent
  parser of the JSON grammar as the Python `json` module accepts it
  (including the non-standard `NaN` / `Infinity` / `-Infinity` constants);
  numbers are kept exactly, as mantissa times a power of ten.
* Python exceptions are modelled with `Except PyErr`; an `.error` value is
  an exception that the modelled code does not catch.
* Machine floats of the source appear in two places: the coordinate scaler
  `image_width / 1024` (exact in binary floating point, since 1024 is a
  power of two, so the exact rational model `Int.tdiv (b * w) 1024` agrees
  with the source for all realistic magnitudes), and the `sqrt` of the size
  normalizer, modelled with `Real.sqrt`.
-/

namespace Seshat

/-- A Python string, as its sequence of code points. -/
abbrev PyStr := List Char

/-- The Python whitespace class (`str.strip`, `str.split`, regex `\s`),
restricted to its ASCII members. -/
def pyWS (c : Char) : Bool :=
  c = ' ' || c = '\t' || c = '\n' || c = '\r' || c = '\x0b' || c = '\x0c'

/-- Python `str.strip()`: remove leading and trailing whitespace. -/
def pyStrip (l : PyStr) : PyStr :=
  ((l.dropWhile pyWS).reverse.dropWhile pyWS).reverse

/-- Python `sep.join(parts)`. -/
def joinSep (sep : PyStr) : List PyStr → PyStr
  | [] => []
  | [x] => x
  | x :: xs => x ++ sep ++ joinSep sep xs

/-- Python `str.split` with a newline separator: split at every newline,
keeping empty parts (an empty string yields one empty part). -/
def splitNl : PyStr → List PyStr
  | [] => [[]]
  | c :: rest =>
    if c = '\n' then [] :: splitNl rest
    else
      match splitNl rest with
      | [] => [[c]]
      | g :: gs => (c :: g) :: gs

/-- Worker for `pySplitWS`: `cur` is the reversed chunk being accumulated. -/
def pySplitWSGo : PyStr → PyStr → List PyStr
  | cur, [] => if cur = [] then [] else [cur.reverse]
  | cur, c :: rest =>
    if pyWS c then
      if cur = [] then pySplitWSGo [] rest else cur.reverse :: pySplitWSGo [] rest
    else pySplitWSGo (c :: cur) rest

/-- Python `str.split()` with no argument: maximal runs of non-whitespace,
no empty tokens. -/
def pySplitWS (l : PyStr) : List PyStr := pySplitWSGo [] l

/-- Digit run of a Python integer literal after its first digit: digits with
single underscores allowed between digits (`int("5_0") == 50`). -/
def digitsCore : PyStr → ℕ → Option ℕ
  | [], acc => some acc
  | '_' :: c :: rest, acc =>
    if c.isDigit then digitsCore rest (acc * 10 + (c.toNat - 48)) else none
  | ['_'], _ => none
  | c :: rest, acc =>
    if c.isDigit then digitsCore rest (acc * 10 + (c.toNat - 48)) else none

/-- Python `int(s)` on a string: strip whitespace, optional sign, decimal
digits (ASCII, idealizing the Python acceptance of Unicode digits); `none`
models `ValueError`. -/
def pyIntOfString (s : PyStr) : Option ℤ :=
  let t := pyStrip s
  let signed : Bool × PyStr :=
    match t with
    | '-' :: r => (true, r)
    | '+' :: r => (false, r)
    | _ => (false, t)
  match signed.2 with
  | [] => none
  | c :: rest =>
    if c.isDigit then
      (fun n => if signed.1 then -(n : ℤ) else (n : ℤ)) <$> digitsCore rest (c.toNat - 48)
    else none

/-- A JSON value as `json.loads` returns it.  A number with mantissa `m` and
decimal exponent `e` denotes `m * 10 ^ e` (ints have `e = 0`); `nan` and
`inf` model the non-standard `NaN` / `Infinity` constants Python accepts. -/
inductive Json where
  | num (m : ℤ) (e : ℤ)
  | str (s : PyStr)
  | bool (b : Bool)
  | null
  | nan
  | inf (neg : Bool)
  | arr (elems : List Json)
  | obj (members : List (PyStr × Json))

/-- The strict JSON whitespace class (space, tab, newline, return). -/
def jsonWS (c : Char) : Bool :=
  c = ' ' || c = '\t' || c = '\n' || c = '\r'

/-- Skip JSON whitespace. -/
def jSkipWS (l : PyStr) : PyStr := l.dropWhile jsonWS

/-- Is `c` an ASCII hexadecimal digit? -/
def isHexDig (c : Char) : Bool :=
  c.isDigit || ('a' ≤ c && c ≤ 'f') || ('A' ≤ c && c ≤ 'F')

/-- Value of a hexadecimal digit. -/
def hexVal (c : Char) : ℕ :=
  if c.isDigit then c.toNat - 48
  else if 'a' ≤ c then c.toNat - 87 else c.toNat - 55

/-- A JSON backslash escape character, if valid. -/
def escChar : Char → Option Char
  | '"' => some '"'
  | '\\' => some '\\'
  | '/' => some '/'
  | 'b' => some '\x08'
  | 'f' => some '\x0c'
  | 'n' => some '\n'
  | 'r' => some '\r'
  | 't' => some '\t'
  | _ => none

/-- Body of a JSON string literal, after the opening quote.  Control
characters are rejected (strict mode); `\\uXXXX` escapes become the code
point (surrogate pairing is not modelled). -/
def jParseStringBody : PyStr → Option (PyStr × PyStr)
  | [] => none
  | '"' :: rest => some ([], rest)
  | '\\' :: 'u' :: a :: b :: c :: d :: rest =>
    if isHexDig a && isHexDig b && isHexDig c && isHexDig d then
      (fun p => (Char.ofNat
        (4096 * hexVal a + 256 * hexVal b + 16 * hexVal c + hexVal d) :: p.1, p.2)) <$>
        jParseStringBody rest
    else none
  | '\\' :: e :: rest =>
    match escChar e with
    | some ch => (fun p => (ch :: p.1, p.2)) <$> jParseStringBody rest
    | none => none
  | c :: rest =>
    if c.toNat < 32 then none
    else (fun p => (c :: p.1, p.2)) <$> jParseStringBody rest

/-- Value of a decimal digit string. -/
def digitsToNat (l : PyStr) : ℕ :=
  l.foldl (fun acc c => acc * 10 + (c.toNat - 48)) 0

/-- A JSON number token (Python regex
`(-?(?:0|[1-9]\d*))(\.\d+)?([eE][-+]?\d+)?`), starting at a `-` or a
digit.  Returns the value and the unconsumed input. -/
def jParseNumber (l : PyStr) : Option (Json × PyStr) :=
  let core : Bool × PyStr :=
    match l with
    | '-' :: r => (true, r)
    | _ => (false, l)
  match core.2 with
  | [] => none
  | c0 :: r0 =>
    if c0 = '0' ∨ (c0.isDigit ∧ c0 ≠ '0') then
      -- leading zeros: a leading '0' ends the integer part at once
      let intPart : PyStr × PyStr :=
        if c0 = '0' then ([c0], r0)
        else (c0 :: r0.takeWhile Char.isDigit, r0.dropWhile Char.isDigit)
      let fracPart : PyStr × PyStr :=
        match intPart.2 with
        | '.' :: r1 =>
          if (r1.takeWhile Char.isDigit) = [] then ([], intPart.2)
          else (r1.takeWhile Char.isDigit, r1.dropWhile Char.isDigit)
        | _ => ([], intPart.2)
      let expPart : Option (ℤ × PyStr) :=
        match fracPart.2 with
        | e :: r2 =>
          if e = 'e' ∨ e = 'E' then
            let esign : Bool × PyStr :=
              match r2 with
              | '-' :: r3 => (true, r3)
              | '+' :: r3 => (false, r3)
              | _ => (false, r2)
            match esign.2.takeWhile Char.isDigit with
            | [] => some (0, fracPart.2)
            | ds =>
              some ((if esign.1 then -(digitsToNat ds : ℤ) else (digitsToNat ds : ℤ)),
                esign.2.dropWhile Char.isDigit)
          else some (0, fracPart.2)
        | [] => some (0, fracPart.2)
      match expPart with
      | none => none
      | some (ev, rest) =>
        let mant : ℕ := digitsToNat (intPart.1 ++ fracPart.1)
        let m : ℤ := if core.1 then -(mant : ℤ) else (mant : ℤ)
        some (.num m (ev - fracPart.1.length), rest)
    else none

/-- Insert into an association list with `dict` semantics: an existing key
keeps its position, its value is overwritten. -/
def objInsert : List (PyStr × Json) → PyStr → Json → List (PyStr × Json)
  | [], k, v => [(k, v)]
  | (k0, v0) :: rest, k, v =>
    if k0 = k then (k0, v) :: rest else (k0, v0) :: objInsert rest k v

mutual

/-- One JSON value, fuel-bounded recursive descent.  The fuel passed by
`jsonLoads` always suffices (see there): three calls per consumed
character bound every call chain. -/
def jParseVal : ℕ → PyStr → Option (Json × PyStr)
  | 0, _ => none
  | fuel + 1, l =>
    match jSkipWS l with
    | [] => none
    | c :: rest =>
      if c = '\x7b' then jParseObj fuel rest
      else if c = '[' then jParseArr fuel rest
      else if c = '"' then
        (fun p => (Json.str p.1, p.2)) <$> jParseStringBody rest
      else if c = 't' then
        match rest with
        | 'r' :: 'u' :: 'e' :: r => some (.bool true, r)
        | _ => none
      else if c = 'f' then
        match rest with
        | 'a' :: 'l' :: 's' :: 'e' :: r => some (.bool false, r)
        | _ => none
      else if c = 'n' then
        match rest with
        | 'u' :: 'l' :: 'l' :: r => some (.null, r)
        | _ => none
      else if c = 'N' then
        match rest with
        | 'a' :: 'N' :: r => some (.nan, r)
        | _ => none
      else if c = 'I' then
        match rest with
        | 'n' :: 'f' :: 'i' :: 'n' :: 'i' :: 't' :: 'y' :: r => some (.inf false, r)
        | _ => none
      else if c = '-' then
        match rest with
        | 'I' :: 'n' :: 'f' :: 'i' :: 'n' :: 'i' :: 't' :: 'y' :: r => some (.inf true, r)
        | _ => jParseNumber (c :: rest)
      else if c.isDigit then jParseNumber (c :: rest)
      else none

/-- A JSON array, after its opening bracket. -/
def jParseArr : ℕ → PyStr → Option (Json × PyStr)
  | 0, _ => none
  | fuel + 1, l =>
    match jSkipWS l with
    | ']' :: r => some (.arr [], r)
    | _ => jParseArrLoop fuel l []

/-- Array elements, positioned at an element. -/
def jParseArrLoop : ℕ → PyStr → List Json → Option (Json × PyStr)
  | 0, _, _ => none
  | fuel + 1, l, acc =>
    match jParseVal fuel l with
    | none => none
    | some (v, r) =>
      match jSkipWS r with
      | ',' :: r2 => jParseArrLoop fuel r2 (acc ++ [v])
      | ']' :: r2 => some (.arr (acc ++ [v]), r2)
      | _ => none

/-- A JSON object, after its opening brace. -/
def jParseObj : ℕ → PyStr → Option (Json × PyStr)
  | 0, _ => none
  | fuel + 1, l =>
    match jSkipWS l with
    | '\x7d' :: r => some (.obj [], r)
    | _ => jParseObjLoop fuel l []

/-- Object members, positioned at a key.  Duplicate keys overwrite the
earlier value in place, as a Python `dict` does. -/
def jParseObjLoop : ℕ → PyStr → List (PyStr × Json) → Option (Json × PyStr)
  | 0, _, _ => none
  | fuel + 1, l, acc =>
    match jSkipWS l with
    | '"' :: r =>
      match jParseStringBody r with
      | none => none
      | some (k, r2) =>
        match jSkipWS r2 with
        | ':' :: r3 =>
          match jParseVal fuel r3 with
          | none => none
          | some (v, r4) =>
            match jSkipWS r4 with
            | ',' :: r5 => jParseObjLoop fuel r5 (objInsert acc k v)
            | '\x7d' :: r5 => some (.obj (objInsert acc k v), r5)
            | _ => none
        | _ => none
    | _ => none

end

/-- `json.loads(s)`: one value, surrounded only by whitespace; `none`
models `json.JSONDecodeError` (including the "Extra data" case).  The fuel
`3 * length + 3` always suffices: every recursive call in the `jParse`
family decrements the fuel by exactly one, and along any call chain each
run of three consecutive calls consumes at least one input character (a
nesting descent `jParseVal` to `jParseArr`/`jParseObj` to the loop costs
three calls for the consumed opening bracket; a loop iteration costs one
call for at least two consumed characters), so no chain is longer than
`3 * length + 3`.  (Python only fails on nesting near its recursion limit
of about 1000 levels; that limit is not modelled.) -/
def jsonLoads (s : PyStr) : Option Json :=
  match jParseVal (3 * s.length + 3) s with
  | some (v, r) => if jSkipWS r = [] then some v else none
  | none => none

/-- The Python exceptions the modelled code can raise and does not catch
at the place they arise.  (`imageError` stands for the `OSError` /
`UnidentifiedImageError` family raised by `PIL.Image.open`; `int()` of an
infinite float raises `OverflowError`, of `NaN` a `ValueError`.) -/
inductive PyErr where
  | typeError
  | valueError
  | overflowError
  | imageError

/-- Python `len()` on a JSON value: sized values only, `none` models the
`TypeError` raised on numbers, booleans and `None`. -/
def pyLen : Json → Option ℕ
  | .str s => some s.length
  | .arr l => some l.length
  | .obj l => some l.length
  | _ => none

/-- Python `int(v)` on a decoded JSON value. -/
def pyIntOfJson : Json → Except PyErr ℤ
  | .num m e => .ok (if 0 ≤ e then m * (10 : ℤ) ^ e.toNat else Int.tdiv m ((10 : ℤ) ^ (-e).toNat))
  | .bool b => .ok (if b then 1 else 0)
  | .str s =>
    match pyIntOfString s with
    | some n => .ok n
    | none => .error .valueError
  | .nan => .error .valueError
  | .inf _ => .error .overflowError
  | .null => .error .typeError
  | .arr _ => .error .typeError
  | .obj _ => .error .typeError

/-- Python `list(map(int, bbox))` on a decoded JSON value: iterate it (a
string yields its characters as one-character strings, a dict its keys)
and convert each item with `int()`; non-iterable values raise `TypeError`.
Errors here are raised outside any `try` of `parse_layout_blocks`. -/
def jsonMapInt : Json → Except PyErr (List ℤ)
  | .arr l => l.mapM pyIntOfJson
  | .str s => s.mapM (fun c => pyIntOfJson (.str [c]))
  | .obj l => l.mapM (fun kv => pyIntOfJson (.str kv.1))
  | _ => .error .typeError

/-- The space-separated fallback encoding (lines 100-105 of the source):
`bbox = list(map(int, bbox_str.split())); assert len(bbox) == 4`, with
`ValueError` and `AssertionError` caught and turned into `bbox = None`. -/
def splitFallback (s : PyStr) : Except PyErr (Option (List ℤ)) :=
  match (pySplitWS s).mapM pyIntOfString with
  | none => .ok none
  | some ints => if ints.length = 4 then .ok (some ints) else .ok none

/-- Lines 93-112 of the source: turn the raw `data-bbox` attribute into the
four integer coordinates.  `ok none` is a dropped block (`bbox = None`,
either a missing / falsy attribute or both encodings failing with a caught
exception); `.error` is an uncaught exception: `len()` on an unsized JSON
value raises `TypeError` outside the `except (JSONDecodeError,
AssertionError)` clause, and `list(map(int, bbox))` on line 112 runs
outside both `try` blocks. -/
def resolveBBox : Option PyStr → Except PyErr (Option (List ℤ))
  | none => .ok none
  | some s =>
    if s = [] then .ok none
    else
      match jsonLoads s with
      | some v =>
        match pyLen v with
        | none => .error .typeError
        | some n =>
          if n = 4 then
            match jsonMapInt v with
            | .ok ints => .ok (some ints)
            | .error e => .error e
          else splitFallback s
      | none => splitFallback s

/-- A node of the markup tree BeautifulSoup builds from the model output:
an element with a tag, attributes and children, or a text run. -/
inductive Node where
  | text (s : PyStr)
  | elem (tag : String) (attrs : List (String × PyStr)) (children : List Node)

mutual

/-- The text runs of all descendants of a node, in document order
(BeautifulSoup `_all_strings`). -/
def nodeStrings : Node → List PyStr
  | .text s => [s]
  | .elem _ _ cs => nodesStrings cs

/-- The text runs of a forest, in document order. -/
def nodesStrings : List Node → List PyStr
  | [] => []
  | n :: ns => nodeStrings n ++ nodesStrings ns

end

/-- BeautifulSoup `get_text(separator=" ", strip=True)`: each descendant
text run is stripped, empty runs are skipped, the rest are joined with a
single space. -/
def getText (n : Node) : PyStr :=
  joinSep [' '] (((nodeStrings n).map pyStrip).filter (fun s => !s.isEmpty))

/-- The attribute access `tag.get(name)` of BeautifulSoup: first matching
attribute, if any. -/
def getAttr (attrs : List (String × PyStr)) (name : String) : Option PyStr :=
  attrs.lookup name

/-- The normalized coordinate grid of the model (`BBOX_SCALE`). -/
def BBOX_SCALE : ℤ := 1024

/-- `int(b * scaler)` with `scaler = dim / BBOX_SCALE` (lines 83-84 and
115-118 of the source).  `dim / 1024` is exact in binary floating point,
so the product is the rational `b * dim / 1024` and Python `int()`
truncates it toward zero: exactly `Int.tdiv (b * dim) 1024`. -/
def pyScale (b : ℤ) (dim : ℕ) : ℤ := Int.tdiv (b * dim) BBOX_SCALE

/-- One emitted layout block (the dict appended on lines 132-140). -/
structure Block where
  text : PyStr
  x : ℤ
  y : ℤ
  width : ℤ
  height : ℤ
  label : PyStr
  estimated : Bool

/-- The body of the `for div in top_level_divs` loop of
`parse_layout_blocks` for one node (lines 88-140): `ok none` when the
block is skipped (non-div node, no valid bbox, empty box after clamping,
or empty text), `ok (some b)` when a block is emitted, `.error` when an
uncaught exception aborts the whole parse. -/
def processTop (n : Node) (image_width image_height : ℕ) : Except PyErr (Option Block) :=
  match n with
  | .text _ => .ok none
  | .elem tag attrs _ =>
    if tag = "div" then
      let label := (getAttr attrs "data-label").getD "Text".toList
      match resolveBBox (getAttr attrs "data-bbox") with
      | .error e => .error e
      | .ok none => .ok none
      | .ok (some bbox) =>
        let x1 := max 0 (pyScale (bbox.getD 0 0) image_width)
        let y1 := max 0 (pyScale (bbox.getD 1 0) image_height)
        let x2 := min (pyScale (bbox.getD 2 0) image_width) (image_width : ℤ)
        let y2 := min (pyScale (bbox.getD 3 0) image_height) (image_height : ℤ)
        let width := x2 - x1
        let height := y2 - y1
        if width ≤ 0 ∨ height ≤ 0 then .ok none
        else
          let text := getText n
          if text = [] then .ok none
          else .ok (some ⟨text, x1, y1, width, height, label, false⟩)
    else .ok none

/-- `parse_layout_blocks(raw_html, image_width, image_height)`: the soup is
the forest `doc`; `find_all("div", recursive=False)` plus the loop is the
traversal of the top-level nodes, non-div nodes contributing nothing.
Blocks are emitted in document order. -/
def parse_layout_blocks (doc : List Node) (image_width image_height : ℕ) :
    Except PyErr (List Block) :=
  match doc with
  | [] => .ok []
  | n :: rest =>
    match processTop n image_width image_height with
    | .error e => .error e
    | .ok none => parse_layout_blocks rest image_width image_height
    | .ok (some b) =>
      match parse_layout_blocks rest image_width image_height with
      | .error e => .error e
      | .ok bs => .ok (b :: bs)

/-- `re.sub(r'<[^>]+>', ' ', raw)` needs one lookahead for the closing
bracket: the tag interior (at least one non-`>` character) and the
remainder after `>`, if the pattern matches here. -/
def findTagEnd (l : PyStr) : Option PyStr :=
  match l.dropWhile (fun c => c != '>') with
  | '>' :: r => if l.takeWhile (fun c => c != '>') = [] then none else some r
  | _ => none

/-- Fuel-bounded worker for `stripTags`; each step consumes at least one
character, so the fuel `stripTags` passes never runs out. -/
def stripTagsGo : ℕ → PyStr → PyStr
  | 0, l => l
  | fuel + 1, l =>
    match l with
    | [] => []
    | c :: rest =>
      if c = '<' then
        match findTagEnd rest with
        | some rest2 => ' ' :: stripTagsGo fuel rest2
        | none => c :: stripTagsGo fuel rest
      else c :: stripTagsGo fuel rest

/-- `re.sub(r'<[^>]+>', ' ', raw)`: replace each leftmost non-overlapping
bracketed run with a single space. -/
def stripTags (l : PyStr) : PyStr := stripTagsGo (l.length + 1) l

/-- Worker for `collapseWS`: `inRun` says whether the previous character
was whitespace (so the single replacement space was already emitted). -/
def collapseWSGo : Bool → PyStr → PyStr
  | _, [] => []
  | inRun, c :: rest =>
    if pyWS c then
      if inRun then collapseWSGo true rest else ' ' :: collapseWSGo true rest
    else c :: collapseWSGo false rest

/-- `re.sub(r'\s+', ' ', text)`: collapse each whitespace run to one
space. -/
def collapseWS (l : PyStr) : PyStr := collapseWSGo false l

/-- The top-level div elements of the soup
(`soup.find_all("div", recursive=False)`). -/
def topLevelDivs (doc : List Node) : List Node :=
  doc.filter fun n =>
    match n with
    | .elem "div" _ _ => true
    | _ => false

/-- The structured strategy of `extract_text_from_html` (lines 148-159):
per-div text via `get_text`, empty texts skipped, joined with newlines. -/
def extractStructured (doc : List Node) : PyStr × List PyStr :=
  let texts := ((topLevelDivs doc).map getText).filter (fun s => !s.isEmpty)
  (joinSep ['\n'] texts, texts)

/-- The degraded strategy of `extract_text_from_html` (lines 160-165, no
BeautifulSoup): literal bracket stripping, whitespace collapsing, strip,
then split on newlines keeping the non-empty stripped lines. -/
def extractDegraded (raw : PyStr) : PyStr × List PyStr :=
  let text := pyStrip (collapseWS (stripTags raw))
  (text, ((splitNl text).map pyStrip).filter (fun s => !s.isEmpty))

/-- `extract_text_from_html(raw_html)`: the import of `bs4` selects the
strategy; the soup `doc` is the parse of `raw_html` when `bs4` is
available. -/
def extract_text_from_html (bs4Available : Bool) (doc : List Node) (raw_html : PyStr) :
    PyStr × List PyStr :=
  if bs4Available then extractStructured doc else extractDegraded raw_html

/-- The two confidence constants of `run_inference` (line 290). -/
def highConfidence : ℚ := 95 / 100

/-- The fallback confidence of `run_inference` (line 290). -/
def lowConfidence : ℚ := 7 / 10

/-- The assemble step of `run_inference` (lines 282-290): text and lines
from the blocks when there are any, else from the plain-text fallback, and
the corresponding fixed confidence. -/
def assemble (bounding_boxes : List Block) (bs4Available : Bool) (doc : List Node)
    (raw_html : PyStr) : PyStr × List PyStr × ℚ :=
  match bounding_boxes with
  | [] =>
    let tl := extract_text_from_html bs4Available doc raw_html
    (tl.1, tl.2, lowConfidence)
  | _ =>
    (joinSep ['\n'] (bounding_boxes.map Block.text), bounding_boxes.map Block.text,
      highConfidence)

/-- The sibling file the resized image is written to
(`Path(image_path).parent / f"resized_<name>"`, flattened to a name
prefix). -/
def resizedPath (p : PyStr) : PyStr := "resized_".toList ++ p

/-- The dimensions `resize_image_if_needed` computes when the image is over
budget (lines 198-200): `scale = (max_pixels / total_pixels) ** 0.5`,
`int(w * scale)`, `int(h * scale)`, in exact real arithmetic. -/
noncomputable def resizeDims (w h maxPixels : ℕ) : ℕ × ℕ :=
  let scale : ℝ := Real.sqrt ((maxPixels : ℝ) / ((w : ℝ) * (h : ℝ)))
  ((⌊(w : ℝ) * scale⌋).toNat, (⌊(h : ℝ) * scale⌋).toNat)

/-- `resize_image_if_needed(image_path, max_pixels)`.  The environment is
explicit: `pilAvailable` is whether `from PIL import Image` succeeds (its
failure is the only caught exception, giving the `(0, 0)` sentinel), and
`openResult` is what `Image.open` yields — `none` when the file cannot be
opened or decoded, in which case the exception propagates out of the
function uncaught. -/
noncomputable def resize_image_if_needed (pilAvailable : Bool)
    (openResult : Option (ℕ × ℕ)) (image_path : PyStr) (maxPixels : ℕ) :
    Except PyErr (PyStr × (ℕ × ℕ)) :=
  if pilAvailable = false then .ok (image_path, (0, 0))
  else
    match openResult with
    | none => .error .imageError
    | some (w, h) =>
      if w * h ≤ maxPixels then .ok (image_path, (w, h))
      else .ok (resizedPath image_path, resizeDims w h maxPixels)

section StringLemmas

/-- The head surviving `dropWhile` fails the predicate. -/
theorem dropWhile_head_false {α} (p : α → Bool) :
    ∀ (l : List α) (c : α) (t : List α), l.dropWhile p = c :: t → p c = false := by
  intro l
  induction l with
  | nil => intro c t h; simp [List.dropWhile] at h
  | cons a l ih =>
    intro c t h
    rw [List.dropWhile_cons] at h
    by_cases hp : p a
    · rw [if_pos hp] at h
      exact ih c t h
    · rw [if_neg hp] at h
      cases h
      simpa using hp

/-- `dropWhile` keeps the last element of a list it does not empty. -/
theorem dropWhile_getLast? {α} (p : α → Bool) :
    ∀ (l : List α) (c : α) (t : List α), l.dropWhile p = c :: t →
      (c :: t).getLast? = l.getLast? := by
  intro l
  induction l with
  | nil => intro c t h; simp [List.dropWhile] at h
  | cons a l ih =>
    intro c t h
    rw [List.dropWhile_cons] at h
    by_cases hp : p a
    · rw [if_pos hp] at h
      rw [ih c t h]
      cases l with
      | nil => simp [List.dropWhile] at h
      | cons b l => simp [List.getLast?_cons_cons]
    · rw [if_neg hp] at h
      rw [h]

/-- A string strips to empty exactly when all its characters are
whitespace. -/
theorem pyStrip_eq_nil_iff (l : PyStr) : pyStrip l = [] ↔ ∀ c ∈ l, pyWS c = true := by
  unfold pyStrip
  rw [List.reverse_eq_nil_iff, List.dropWhile_eq_nil_iff]
  constructor
  · intro h c hc
    have hcl : c ∈ l.takeWhile pyWS ++ l.dropWhile pyWS := by
      rw [List.takeWhile_append_dropWhile]
      exact hc
    rcases List.mem_append.1 hcl with h1 | h2
    · exact List.mem_takeWhile_imp h1
    · exact h c (List.mem_reverse.2 h2)
  · intro h c hc
    exact h c ((List.dropWhile_sublist pyWS).mem (List.mem_reverse.1 hc))

/-- A non-empty stripped string starts with a non-whitespace character. -/
theorem pyStrip_head_false (l : PyStr) (c : Char) (t : PyStr)
    (h : pyStrip l = c :: t) : pyWS c = false := by
  unfold pyStrip at h
  rcases hn : (l.dropWhile pyWS).reverse.dropWhile pyWS with _ | ⟨d, n⟩
  · rw [hn] at h; simp at h
  · rw [hn] at h
    have hlast : (d :: n).getLast? = (l.dropWhile pyWS).reverse.getLast? :=
      dropWhile_getLast? pyWS _ d n hn
    rw [List.getLast?_reverse] at hlast
    have hc : some c = (l.dropWhile pyWS).head? := by
      have : ((d :: n).reverse).head? = some c := by rw [h]; rfl
      rw [List.head?_reverse] at this
      rw [← this, hlast]
    rcases hm : l.dropWhile pyWS with _ | ⟨m0, m⟩
    · rw [hm] at hc; simp at hc
    · rw [hm] at hc
      have := dropWhile_head_false pyWS l m0 m hm
      simp at hc
      rw [hc]
      exact this

/-- A non-empty stripped string ends with a non-whitespace character. -/
theorem pyStrip_getLast_false (l : PyStr) (c : Char)
    (h : (pyStrip l).getLast? = some c) : pyWS c = false := by
  unfold pyStrip at h
  rw [List.getLast?_reverse] at h
  rcases hn : (l.dropWhile pyWS).reverse.dropWhile pyWS with _ | ⟨d, n⟩
  · rw [hn] at h; simp at h
  · rw [hn] at h
    have := dropWhile_head_false pyWS (l.dropWhile pyWS).reverse d n hn
    simp at h
    rwa [h] at this

/-- Characters of a stripped string are characters of the original. -/
theorem mem_of_mem_pyStrip (l : PyStr) (c : Char) (h : c ∈ pyStrip l) : c ∈ l := by
  unfold pyStrip at h
  exact (List.dropWhile_sublist pyWS).mem
    (List.mem_reverse.1 ((List.dropWhile_sublist pyWS).mem (List.mem_reverse.1 h)))

/-- A non-empty stripped string contains a non-whitespace character. -/
theorem exists_not_ws_of_pyStrip (l : PyStr) (h : pyStrip l ≠ []) :
    ∃ c ∈ pyStrip l, pyWS c = false := by
  rcases hs : pyStrip l with _ | ⟨c, t⟩
  · exact absurd hs h
  · exact ⟨c, by simp, pyStrip_head_false l c t hs⟩

/-- Stripping is idempotent. -/
theorem pyStrip_idem (l : PyStr) : pyStrip (pyStrip l) = pyStrip l := by
  rcases hs : pyStrip l with _ | ⟨c, t⟩
  · rfl
  · have hhead : pyWS c = false := pyStrip_head_false l c t hs
    have hlast : ∀ d, (c :: t).getLast? = some d → pyWS d = false := by
      intro d hd
      exact pyStrip_getLast_false l d (by rw [hs]; exact hd)
    unfold pyStrip
    rw [List.dropWhile_cons, if_neg (by simp [hhead])]
    rcases hr : (c :: t).reverse with _ | ⟨d, r⟩
    · simp at hr
    · have hd : pyWS d = false := by
        apply hlast
        rw [← List.head?_reverse, hr]
        rfl
      rw [List.dropWhile_cons, if_neg (by simp [hd]), ← hr, List.reverse_reverse]

/-- A character of the first part is a character of the joined string. -/
theorem mem_joinSep_head (sep f : PyStr) (rest : List PyStr) (c : Char) (h : c ∈ f) :
    c ∈ joinSep sep (f :: rest) := by
  cases rest with
  | nil => exact h
  | cons g gs =>
    unfold joinSep
    exact List.mem_append.2 (Or.inl (List.mem_append.2 (Or.inl h)))

/-- A non-empty `get_text` output survives another strip: its first
fragment is non-empty and already stripped, so it contributes a
non-whitespace character. -/
theorem pyStrip_getText_ne_nil (n : Node) (h : getText n ≠ []) :
    pyStrip (getText n) ≠ [] := by
  unfold getText at h ⊢
  rcases hf : ((nodeStrings n).map pyStrip).filter (fun s => !s.isEmpty) with _ | ⟨f, fs⟩
  · rw [hf] at h
    exact absurd rfl h
  · rw [hf] at h ⊢
    have hfmem : f ∈ ((nodeStrings n).map pyStrip).filter (fun s => !s.isEmpty) := by
      rw [hf]; simp
    have hfne : f ≠ [] := by
      have := (List.mem_filter.1 hfmem).2
      simpa [List.isEmpty_iff] using this
    obtain ⟨raw, _, hraw⟩ := List.mem_map.1 (List.mem_filter.1 hfmem).1
    obtain ⟨c, hcf, hcw⟩ := exists_not_ws_of_pyStrip raw (by rw [hraw]; exact hfne)
    rw [hraw] at hcf
    intro hnil
    have := (pyStrip_eq_nil_iff _).1 hnil c (mem_joinSep_head [' '] f fs c hcf)
    rw [this] at hcw
    exact absurd hcw (by simp)

/-- Every character the whitespace collapse emits is a space or
non-whitespace. -/
theorem collapseWSGo_mem (l : PyStr) :
    ∀ (b : Bool) (c : Char), c ∈ collapseWSGo b l → c = ' ' ∨ pyWS c = false := by
  induction l with
  | nil => intro b c h; simp [collapseWSGo] at h
  | cons a l ih =>
    intro b c h
    unfold collapseWSGo at h
    by_cases hw : pyWS a
    · rw [if_pos hw] at h
      cases b with
      | true => exact ih true c h
      | false =>
        rcases List.mem_cons.1 h with rfl | h2
        · exact Or.inl rfl
        · exact ih true c h2
    · rw [if_neg hw] at h
      rcases List.mem_cons.1 h with rfl | h2
      · exact Or.inr (by simpa using hw)
      · exact ih false c h2

/-- A newline-free string splits into itself alone. -/
theorem splitNl_no_newline (l : PyStr) (h : ('\n' : Char) ∉ l) : splitNl l = [l] := by
  induction l with
  | nil => rfl
  | cons c rest ih =>
    unfold splitNl
    rw [if_neg (by intro hc; exact h (hc ▸ List.mem_cons_self c rest))]
    rw [ih (fun hm => h (List.mem_cons_of_mem c hm))]

end StringLemmas

/-- Every block `processTop` emits has a clamped, positive-area box inside
the image and non-blank text. -/
theorem processTop_ok_some (n : Node) (W H : ℕ) (b : Block)
    (h : processTop n W H = .ok (some b)) :
    0 ≤ b.x ∧ 0 ≤ b.y ∧ b.x + b.width ≤ (W : ℤ) ∧ b.y + b.height ≤ (H : ℤ) ∧
      0 < b.width ∧ 0 < b.height ∧ b.text ≠ [] ∧ pyStrip b.text ≠ [] ∧
      b.estimated = false := by
  cases n with
  | text s => simp [processTop] at h
  | elem tag attrs cs =>
    simp only [processTop] at h
    by_cases htag : tag = "div"
    · rw [if_pos htag] at h
      cases hres : resolveBBox (getAttr attrs "data-bbox") with
      | error e => rw [hres] at h; simp at h
      | ok o =>
        rw [hres] at h
        cases o with
        | none => simp at h
        | some bbox =>
          simp only [] at h
          split at h
          · simp at h
          · split at h
            · simp at h
            · rename_i hwh htext
              simp only [Except.ok.injEq, Option.some.injEq] at h
              subst h
              refine ⟨le_max_left 0 _, le_max_left 0 _, ?_, ?_, ?_, ?_, htext,
                pyStrip_getText_ne_nil _ htext, rfl⟩
              · simp only []
                omega
              · simp only []
                omega
              · simp only []
                omega
              · simp only []
                omega
    · rw [if_neg htag] at h
      simp at h

/-- C1: for positive image dimensions, every block `parse_layout_blocks`
emits has `0 ≤ x`, `0 ≤ y`, `x + width ≤ image_width`,
`y + height ≤ image_height`, `width > 0`, `height > 0`, and text that is
non-empty after trimming; no zero-size or blank block is ever present. -/
theorem parse_layout_blocks_invariants (doc : List Node) (image_width image_height : ℕ)
    (hW : 0 < image_width) (hH : 0 < image_height) (bs : List Block)
    (hbs : parse_layout_blocks doc image_width image_height = .ok bs) :
    ∀ b ∈ bs, 0 ≤ b.x ∧ 0 ≤ b.y ∧ b.x + b.width ≤ (image_width : ℤ) ∧
      b.y + b.height ≤ (image_height : ℤ) ∧ 0 < b.width ∧ 0 < b.height ∧
      pyStrip b.text ≠ [] := by
  induction doc generalizing bs with
  | nil =>
    simp only [parse_layout_blocks, Except.ok.injEq] at hbs
    subst hbs
    intro b hb
    simp at hb
  | cons n rest ih =>
    unfold parse_layout_blocks at hbs
    cases hp : processTop n image_width image_height with
    | error e => rw [hp] at hbs; simp at hbs
    | ok o =>
      rw [hp] at hbs
      cases o with
      | none => exact ih bs hbs
      | some b0 =>
        simp only [] at hbs
        cases hr : parse_layout_blocks rest image_width image_height with
        | error e => rw [hr] at hbs; simp at hbs
        | ok bs2 =>
          rw [hr] at hbs
          simp only [Except.ok.injEq] at hbs
          subst hbs
          intro b hb
          rcases List.mem_cons.1 hb with rfl | hb2
          · obtain ⟨h1, h2, h3, h4, h5, h6, _, h8, _⟩ :=
              processTop_ok_some n image_width image_height b hp
            exact ⟨h1, h2, h3, h4, h5, h6, h8⟩
          · exact ih bs2 hr b hb2

/-- Concrete instance of the C1 invariants: end-to-end scenario A. -/
theorem parse_layout_blocks_invariants_witness :
    0 < 1000 ∧ 0 < 500 ∧
    parse_layout_blocks
        [.elem "div" [("data-bbox", "[0,0,512,512]".toList)] [.text "Hello".toList]]
        1000 500 =
      .ok [⟨"Hello".toList, 0, 0, 500, 250, "Text".toList, false⟩] ∧
    ∀ b ∈ [(⟨"Hello".toList, 0, 0, 500, 250, "Text".toList, false⟩ : Block)],
      0 ≤ b.x ∧ 0 ≤ b.y ∧ b.x + b.width ≤ ((1000 : ℕ) : ℤ) ∧
        b.y + b.height ≤ ((500 : ℕ) : ℤ) ∧ 0 < b.width ∧ 0 < b.height ∧
        pyStrip b.text ≠ [] :=
  ⟨by decide, by decide, rfl,
    parse_layout_blocks_invariants
      [.elem "div" [("data-bbox", "[0,0,512,512]".toList)] [.text "Hello".toList]]
      1000 500 (by decide) (by decide)
      [⟨"Hello".toList, 0, 0, 500, 250, "Text".toList, false⟩] rfl⟩

/-- C2: whenever the bbox attribute resolves to four integers, the emitted
block corner is each coordinate scaled by its own axis factor `dim/1024`
and truncated, clamped after scaling — the left/top edge floored at 0, the
right/bottom edge capped at the image dimension — and width/height are the
post-clamp differences. -/
theorem processTop_rescale_formula (attrs : List (String × PyStr)) (children : List Node)
    (W H : ℕ) (b0 b1 b2 b3 : ℤ) (b : Block)
    (hres : resolveBBox (getAttr attrs "data-bbox") = .ok (some [b0, b1, b2, b3]))
    (h : processTop (.elem "div" attrs children) W H = .ok (some b)) :
    b.x = max 0 (Int.tdiv (b0 * W) 1024) ∧
    b.y = max 0 (Int.tdiv (b1 * H) 1024) ∧
    b.width = min (Int.tdiv (b2 * W) 1024) (W : ℤ) - max 0 (Int.tdiv (b0 * W) 1024) ∧
    b.height = min (Int.tdiv (b3 * H) 1024) (H : ℤ) - max 0 (Int.tdiv (b1 * H) 1024) := by
  simp only [processTop] at h
  simp only [if_true] at h
  rw [hres] at h
  simp only [] at h
  split at h
  · simp at h
  · split at h
    · simp at h
    · simp only [Except.ok.injEq, Option.some.injEq] at h
      subst h
      refine ⟨?_, ?_, ?_, ?_⟩ <;> simp [pyScale, BBOX_SCALE]

/-- Concrete instance of the C2 formula: end-to-end scenario B, the
out-of-range box `"0 0 2000 2000"` with an 800 by 600 image clamps to the
full image, one block `(0, 0, 800, 600)`. -/
theorem processTop_rescale_formula_witness :
    resolveBBox (getAttr [("data-bbox", "0 0 2000 2000".toList)] "data-bbox") =
      .ok (some [0, 0, 2000, 2000]) ∧
    parse_layout_blocks
        [.elem "div" [("data-bbox", "0 0 2000 2000".toList)] [.text "Out of range".toList]]
        800 600 =
      .ok [⟨"Out of range".toList, 0, 0, 800, 600, "Text".toList, false⟩] ∧
    processTop (.elem "div" [("data-bbox", "0 0 2000 2000".toList)]
        [.text "Out of range".toList]) 800 600 =
      .ok (some ⟨"Out of range".toList, 0, 0, 800, 600, "Text".toList, false⟩) ∧
    ((⟨"Out of range".toList, 0, 0, 800, 600, "Text".toList, false⟩ : Block).x =
        max 0 (Int.tdiv (0 * (800 : ℕ)) 1024) ∧
      (⟨"Out of range".toList, 0, 0, 800, 600, "Text".toList, false⟩ : Block).y =
        max 0 (Int.tdiv (0 * (600 : ℕ)) 1024) ∧
      (⟨"Out of range".toList, 0, 0, 800, 600, "Text".toList, false⟩ : Block).width =
        min (Int.tdiv (2000 * (800 : ℕ)) 1024) ((800 : ℕ) : ℤ) -
          max 0 (Int.tdiv (0 * (800 : ℕ)) 1024) ∧
      (⟨"Out of range".toList, 0, 0, 800, 600, "Text".toList, false⟩ : Block).height =
        min (Int.tdiv (2000 * (600 : ℕ)) 1024) ((600 : ℕ) : ℤ) -
          max 0 (Int.tdiv (0 * (600 : ℕ)) 1024)) :=
  ⟨rfl, rfl, rfl,
    processTop_rescale_formula [("data-bbox", "0 0 2000 2000".toList)]
      [.text "Out of range".toList] 800 600 0 0 2000 2000
      ⟨"Out of range".toList, 0, 0, 800, 600, "Text".toList, false⟩ rfl rfl⟩

/-- C3 counterexample: a bbox attribute whose JSON parse yields a bare
number makes `len(bbox)` raise an uncaught `TypeError`, and a JSON array
of four non-numeric strings makes `list(map(int, bbox))` raise an uncaught
`ValueError`; both abort the whole parse instead of dropping the block. -/
theorem parse_layout_blocks_bbox_abort :
    parse_layout_blocks [.elem "div" [("data-bbox", "5".toList)] [.text "Hi".toList]]
        100 100 = .error .typeError ∧
    parse_layout_blocks
        [.elem "div" [("data-bbox", "[\"a\",\"b\",\"c\",\"d\"]".toList)]
          [.text "Hi".toList]] 100 100 = .error .valueError ∧
    parse_layout_blocks
        [.elem "div" [("data-bbox", "[[[[[[[[[[]]]]]]]]],0,0,0]".toList)]
          [.text "Hi".toList]] 100 100 = .error .typeError :=
  ⟨rfl, rfl, rfl⟩

/-- C3 (amended): a top-level div whose bbox attribute fails both tolerated
decodings with only caught exceptions (`resolveBBox` answers `ok none`) is
dropped and the parse continues exactly as if the div were absent. -/
theorem parse_layout_blocks_drop_continue (attrs : List (String × PyStr))
    (children doc : List Node) (W H : ℕ)
    (hres : resolveBBox (getAttr attrs "data-bbox") = .ok none) :
    parse_layout_blocks (.elem "div" attrs children :: doc) W H =
      parse_layout_blocks doc W H := by
  have hp : processTop (.elem "div" attrs children) W H = .ok none := by
    simp only [processTop, if_true]
    rw [hres]
  simp only [parse_layout_blocks]
  rw [hp]

/-- Concrete instance of the C3 amendment: a garbage bbox attribute is
dropped while the following block is still parsed. -/
theorem parse_layout_blocks_drop_continue_witness :
    resolveBBox (getAttr [("data-bbox", "garbage".toList)] "data-bbox") = .ok none ∧
    parse_layout_blocks
        [.elem "div" [("data-bbox", "garbage".toList)] [.text "Hi".toList],
          .elem "div" [("data-bbox", "[0,0,512,512]".toList)] [.text "Kept".toList]]
        100 100 =
      parse_layout_blocks
        [.elem "div" [("data-bbox", "[0,0,512,512]".toList)] [.text "Kept".toList]]
        100 100 :=
  ⟨rfl,
    parse_layout_blocks_drop_continue [("data-bbox", "garbage".toList)]
      [.text "Hi".toList]
      [.elem "div" [("data-bbox", "[0,0,512,512]".toList)] [.text "Kept".toList]]
      100 100 rfl⟩

/-- C9: the label of an emitted block is the `data-label` attribute value passed
through unchanged, `"Text"` when the attribute is absent; no vocabulary
check is applied. -/
theorem processTop_label_passthrough (attrs : List (String × PyStr)) (children : List Node)
    (W H : ℕ) (b : Block)
    (h : processTop (.elem "div" attrs children) W H = .ok (some b)) :
    b.label = (getAttr attrs "data-label").getD "Text".toList := by
  simp only [processTop, if_true] at h
  cases hres : resolveBBox (getAttr attrs "data-bbox") with
  | error e => rw [hres] at h; simp at h
  | ok o =>
    rw [hres] at h
    cases o with
    | none => simp at h
    | some bbox =>
      simp only [] at h
      split at h
      · simp at h
      · split at h
        · simp at h
        · simp only [Except.ok.injEq, Option.some.injEq] at h
          subst h
          rfl

/-- Concrete instance of C9: a label outside the documented vocabulary is
emitted verbatim. -/
theorem processTop_label_passthrough_witness :
    processTop
        (.elem "div"
          [("data-bbox", "[0,0,100,100]".toList), ("data-label", "Wacky-Label".toList)]
          [.text "x".toList]) 1024 1024 =
      .ok (some ⟨['x'], 0, 0, 100, 100, "Wacky-Label".toList, false⟩) ∧
    (⟨['x'], 0, 0, 100, 100, "Wacky-Label".toList, false⟩ : Block).label =
      (getAttr [("data-bbox", "[0,0,100,100]".toList),
          ("data-label", "Wacky-Label".toList)] "data-label").getD "Text".toList :=
  ⟨rfl,
    processTop_label_passthrough
      [("data-bbox", "[0,0,100,100]".toList), ("data-label", "Wacky-Label".toList)]
      [.text "x".toList] 1024 1024
      ⟨['x'], 0, 0, 100, 100, "Wacky-Label".toList, false⟩ rfl⟩

/-- The degraded strategy in closed form: the collapsed text has no
newline left, so the line list is that text alone (or nothing when it is
empty). -/
theorem extractDegraded_eq (raw : PyStr) :
    extractDegraded raw =
      (pyStrip (collapseWS (stripTags raw)),
        if pyStrip (collapseWS (stripTags raw)) = [] then []
        else [pyStrip (collapseWS (stripTags raw))]) := by
  have hnl : ('\n' : Char) ∉ pyStrip (collapseWS (stripTags raw)) := by
    intro hm
    rcases collapseWSGo_mem (stripTags raw) false '\n'
        (mem_of_mem_pyStrip _ _ hm) with h1 | h2
    · exact absurd h1 (by decide)
    · simp [pyWS] at h2
  simp only [extractDegraded]
  rw [splitNl_no_newline _ hnl]
  simp only [List.map, pyStrip_idem]
  by_cases ht : pyStrip (collapseWS (stripTags raw)) = []
  · rw [if_pos ht, ht]
    simp
  · rw [if_neg ht]
    have hb : (!List.isEmpty (pyStrip (collapseWS (stripTags raw)))) = true := by
      simpa [List.isEmpty_iff] using ht
    simp [List.filter_cons, hb]

/-- C8: both strategies of `extract_text_from_html` agree in shape — the
text is the newline-join of the lines, and every line is non-empty after
trimming. -/
theorem extract_text_from_html_shape (bs4Available : Bool) (doc : List Node) (raw : PyStr) :
    (extract_text_from_html bs4Available doc raw).1 =
      joinSep ['\n'] (extract_text_from_html bs4Available doc raw).2 ∧
    ∀ l ∈ (extract_text_from_html bs4Available doc raw).2, pyStrip l ≠ [] := by
  cases bs4Available with
  | true =>
    constructor
    · rfl
    · intro l hl
      have hl2 : l ∈ ((topLevelDivs doc).map getText).filter (fun s => !s.isEmpty) := hl
      have hne : l ≠ [] := by
        have := (List.mem_filter.1 hl2).2
        simpa [List.isEmpty_iff] using this
      obtain ⟨d, _, hd⟩ := List.mem_map.1 (List.mem_filter.1 hl2).1
      rw [← hd]
      exact pyStrip_getText_ne_nil d (by rw [hd]; exact hne)
  | false =>
    have he : extract_text_from_html false doc raw = extractDegraded raw := rfl
    rw [he, extractDegraded_eq raw]
    by_cases ht : pyStrip (collapseWS (stripTags raw)) = []
    · rw [if_pos ht, ht]
      exact ⟨rfl, by simp⟩
    · rw [if_neg ht]
      constructor
      · rfl
      · intro l hl
        simp only [List.mem_singleton] at hl
        rw [hl, pyStrip_idem]
        exact ht

/-- Concrete instance of C8, on the degraded strategy with markup input. -/
theorem extract_text_from_html_shape_witness :
    (extract_text_from_html false [] "<p>one two</p>\nthree".toList).1 =
      joinSep ['\n'] (extract_text_from_html false [] "<p>one two</p>\nthree".toList).2 ∧
    ∀ l ∈ (extract_text_from_html false [] "<p>one two</p>\nthree".toList).2,
      pyStrip l ≠ [] :=
  extract_text_from_html_shape false [] "<p>one two</p>\nthree".toList

/-- C10: the degraded strategy never returns more than one line — the
whitespace collapse has already replaced every newline with a space. -/
theorem extract_degraded_single_line (doc : List Node) (raw : PyStr) :
    (extract_text_from_html false doc raw).2.length ≤ 1 := by
  have he : extract_text_from_html false doc raw = extractDegraded raw := rfl
  rw [he, extractDegraded_eq raw]
  by_cases ht : pyStrip (collapseWS (stripTags raw)) = []
  · rw [if_pos ht]
    simp
  · rw [if_neg ht]
    simp

/-- C7: the assemble step takes text and lines from the blocks (newline
join, one line per block, block order) with the high fixed confidence when
at least one block was parsed, and from the plain-text fallback with the
lower fixed confidence — never the higher one — when no block was. -/
theorem assemble_blocks_or_fallback (bounding_boxes : List Block) (bs4Available : Bool)
    (doc : List Node) (raw_html : PyStr) :
    (bounding_boxes ≠ [] →
      assemble bounding_boxes bs4Available doc raw_html =
        (joinSep ['\n'] (bounding_boxes.map Block.text), bounding_boxes.map Block.text,
          highConfidence)) ∧
    (bounding_boxes = [] →
      assemble bounding_boxes bs4Available doc raw_html =
        ((extract_text_from_html bs4Available doc raw_html).1,
          (extract_text_from_html bs4Available doc raw_html).2, lowConfidence)) ∧
    lowConfidence ≠ highConfidence := by
  refine ⟨?_, ?_, ?_⟩
  · intro hne
    cases bounding_boxes with
    | nil => exact absurd rfl hne
    | cons b bs => rfl
  · intro hnil
    subst hnil
    rfl
  · intro hcontra
    have : (7 : ℚ) / 10 = 95 / 100 := hcontra
    norm_num at this

/-- Concrete instance of C7: one block gives the block-derived text and the
high confidence, zero blocks give the fallback text and the low
confidence. -/
theorem assemble_blocks_or_fallback_witness :
    ([(⟨"hi".toList, 0, 0, 1, 1, "Text".toList, false⟩ : Block)] ≠ []) ∧
    assemble [⟨"hi".toList, 0, 0, 1, 1, "Text".toList, false⟩] true [] [] =
      (joinSep ['\n']
          ([(⟨"hi".toList, 0, 0, 1, 1, "Text".toList, false⟩ : Block)].map Block.text),
        [(⟨"hi".toList, 0, 0, 1, 1, "Text".toList, false⟩ : Block)].map Block.text,
        highConfidence) ∧
    assemble [] true [] [] =
      ((extract_text_from_html true [] []).1, (extract_text_from_html true [] []).2,
        lowConfidence) ∧
    lowConfidence ≠ highConfidence :=
  ⟨by simp,
    (assemble_blocks_or_fallback [⟨"hi".toList, 0, 0, 1, 1, "Text".toList, false⟩]
      true [] []).1 (by simp),
    (assemble_blocks_or_fallback [] true [] []).2.1 rfl,
    (assemble_blocks_or_fallback [] true [] []).2.2⟩

/-- The floor of a nonnegative real, read back as a natural, is at most the
real. -/
theorem floor_toNat_le (x : ℝ) (hx : 0 ≤ x) : ((⌊x⌋.toNat : ℕ) : ℝ) ≤ x := by
  have hf : (0 : ℤ) ≤ ⌊x⌋ := Int.floor_nonneg.2 hx
  have h2 : ((⌊x⌋.toNat : ℕ) : ℝ) = ((⌊x⌋ : ℤ) : ℝ) := by
    exact_mod_cast congrArg (fun z : ℤ => (z : ℝ)) (Int.toNat_of_nonneg hf)
  rw [h2]
  exact Int.floor_le x

/-- C4 counterexample: with the imaging library importable, an image that
cannot be opened or decoded makes the normalizer raise — the `(0, 0)`
sentinel is not returned. -/
theorem resize_decode_error_raises :
    resize_image_if_needed true none "img.png".toList (2048 * 2048) =
      .error .imageError ∧
    resize_image_if_needed true none "img.png".toList (2048 * 2048) ≠
      .ok ("img.png".toList, (0, 0)) := by
  have h1 : resize_image_if_needed true none "img.png".toList (2048 * 2048) =
      .error .imageError := rfl
  refine ⟨h1, ?_⟩
  rw [h1]
  simp

/-- C4 (amended): the `(0, 0)` sentinel is returned exactly when the
imaging library itself cannot be imported; nothing else is caught inside
the normalizer. -/
theorem resize_sentinel_on_import_failure (openResult : Option (ℕ × ℕ)) (p : PyStr)
    (maxPixels : ℕ) :
    resize_image_if_needed false openResult p maxPixels = .ok (p, (0, 0)) := rfl

/-- C5: an image already within the pixel budget is returned unchanged —
same dimensions and the original path, no resizing. -/
theorem resize_identity_small (w h maxPixels : ℕ) (p : PyStr) (hw : 0 < w) (hh : 0 < h)
    (hle : w * h ≤ maxPixels) :
    resize_image_if_needed true (some (w, h)) p maxPixels = .ok (p, (w, h)) := by
  simp only [resize_image_if_needed]
  rw [if_neg (by simp), if_pos hle]

/-- Concrete instance of C5. -/
theorem resize_identity_small_witness :
    0 < 100 ∧ 0 < 100 ∧ 100 * 100 ≤ 2048 * 2048 ∧
    resize_image_if_needed true (some (100, 100)) "a.png".toList (2048 * 2048) =
      .ok ("a.png".toList, (100, 100)) :=
  ⟨by decide, by decide, by norm_num,
    resize_identity_small 100 100 (2048 * 2048) "a.png".toList (by decide) (by decide)
      (by norm_num)⟩

/-- C6: an over-budget image is downscaled with the single factor
`sqrt(max_pixels / (w * h))` applied to both axes and floored; the
resulting pixel count never exceeds the budget, and a square image stays
square. -/
theorem resize_downscale (w h maxPixels : ℕ) (p : PyStr) (hw : 0 < w) (hh : 0 < h)
    (hM : maxPixels < w * h) :
    resize_image_if_needed true (some (w, h)) p maxPixels =
      .ok (resizedPath p, resizeDims w h maxPixels) ∧
    (resizeDims w h maxPixels).1 * (resizeDims w h maxPixels).2 ≤ maxPixels ∧
    (w = h → (resizeDims w h maxPixels).1 = (resizeDims w h maxPixels).2) := by
  refine ⟨?_, ?_, ?_⟩
  · simp only [resize_image_if_needed]
    rw [if_neg (by simp), if_neg (by omega)]
  · have hwR : (0 : ℝ) < (w : ℝ) := by exact_mod_cast hw
    have hhR : (0 : ℝ) < (h : ℝ) := by exact_mod_cast hh
    have hdiv : (0 : ℝ) ≤ (maxPixels : ℝ) / ((w : ℝ) * (h : ℝ)) := by positivity
    have hs : (0 : ℝ) ≤ Real.sqrt ((maxPixels : ℝ) / ((w : ℝ) * (h : ℝ))) :=
      Real.sqrt_nonneg _
    have hws : (0 : ℝ) ≤ (w : ℝ) * Real.sqrt ((maxPixels : ℝ) / ((w : ℝ) * (h : ℝ))) := by
      positivity
    have hhs : (0 : ℝ) ≤ (h : ℝ) * Real.sqrt ((maxPixels : ℝ) / ((w : ℝ) * (h : ℝ))) := by
      positivity
    have h1 := floor_toNat_le _ hws
    have h2 := floor_toNat_le _ hhs
    have key : (((resizeDims w h maxPixels).1 * (resizeDims w h maxPixels).2 : ℕ) : ℝ) ≤
        (maxPixels : ℝ) := by
      simp only [resizeDims]
      push_cast
      calc ((⌊(w : ℝ) * Real.sqrt ((maxPixels : ℝ) / ((w : ℝ) * (h : ℝ)))⌋.toNat : ℝ)) *
            ((⌊(h : ℝ) * Real.sqrt ((maxPixels : ℝ) / ((w : ℝ) * (h : ℝ)))⌋.toNat : ℝ)) ≤
          ((w : ℝ) * Real.sqrt ((maxPixels : ℝ) / ((w : ℝ) * (h : ℝ)))) *
            ((h : ℝ) * Real.sqrt ((maxPixels : ℝ) / ((w : ℝ) * (h : ℝ)))) := by
            exact mul_le_mul h1 h2 (by positivity) hws
        _ = ((w : ℝ) * (h : ℝ)) *
            (Real.sqrt ((maxPixels : ℝ) / ((w : ℝ) * (h : ℝ))) *
              Real.sqrt ((maxPixels : ℝ) / ((w : ℝ) * (h : ℝ)))) := by ring
        _ = ((w : ℝ) * (h : ℝ)) * ((maxPixels : ℝ) / ((w : ℝ) * (h : ℝ))) := by
            rw [Real.mul_self_sqrt hdiv]
        _ = (maxPixels : ℝ) := by field_simp
    exact_mod_cast key
  · intro he
    subst he
    rfl

/-- Concrete instance of C6: end-to-end scenario D, a 4000 by 4000 image
with a 2048 * 2048 budget. -/
theorem resize_downscale_witness :
    0 < 4000 ∧ 2048 * 2048 < 4000 * 4000 ∧
    resize_image_if_needed true (some (4000, 4000)) "page.png".toList (2048 * 2048) =
      .ok (resizedPath "page.png".toList, resizeDims 4000 4000 (2048 * 2048)) ∧
    (resizeDims 4000 4000 (2048 * 2048)).1 * (resizeDims 4000 4000 (2048 * 2048)).2 ≤
      2048 * 2048 ∧
    (resizeDims 4000 4000 (2048 * 2048)).1 = (resizeDims 4000 4000 (2048 * 2048)).2 := by
  obtain ⟨h1, h2, h3⟩ := resize_downscale 4000 4000 (2048 * 2048) "page.png".toList
    (by norm_num) (by norm_num) (by norm_num)
  exact ⟨by norm_num, by norm_num, h1, h2, h3 rfl⟩

end Seshat

